import Mathlib

/-!
Verification of the data-integrity subsystem: the CID identifier codec
(`bytes_to_cid`), the recursive document repair engine (`fix_json_cids`),
the batch migration driver loop, the reconciliation set difference, the
bounded reverse scan over the delivery log, and the date-range filter.
Each definition is a shallow embedding of the corresponding Python
function; machine bytes are `Nat` values with explicit `< 256` bounds,
fallible operations return `Except` or `Option`, and JSON documents are
the inductive tree `J`.
-/

/-! ### Identifier codec (fix_cid_corruption.py, bytes_to_cid) -/

/-- The RFC 4648 base32 alphabet, as used by Python `base64.b32encode`. -/
def b32chars : List Char :=
  ['A','B','C','D','E','F','G','H','I','J','K','L','M','N','O','P',
   'Q','R','S','T','U','V','W','X','Y','Z','2','3','4','5','6','7']

def b32char (n : Nat) : Char := b32chars.getD n 'A'

/-- RFC 4648 base32 of a byte list, 5-byte group at a time, with trailing
padding characters, exactly as `base64.b32encode` produces them. -/
def b32groups : List Nat → List Char
  | [] => []
  | [b0] =>
      [b32char (b0 >>> 3), b32char ((b0 &&& 7) <<< 2),
       '=', '=', '=', '=', '=', '=']
  | [b0, b1] =>
      [b32char (b0 >>> 3), b32char (((b0 &&& 7) <<< 2) ||| (b1 >>> 6)),
       b32char ((b1 >>> 1) &&& 31), b32char ((b1 &&& 1) <<< 4),
       '=', '=', '=', '=']
  | [b0, b1, b2] =>
      [b32char (b0 >>> 3), b32char (((b0 &&& 7) <<< 2) ||| (b1 >>> 6)),
       b32char ((b1 >>> 1) &&& 31), b32char (((b1 &&& 1) <<< 4) ||| (b2 >>> 4)),
       b32char ((b2 &&& 15) <<< 1), '=', '=', '=']
  | [b0, b1, b2, b3] =>
      [b32char (b0 >>> 3), b32char (((b0 &&& 7) <<< 2) ||| (b1 >>> 6)),
       b32char ((b1 >>> 1) &&& 31), b32char (((b1 &&& 1) <<< 4) ||| (b2 >>> 4)),
       b32char (((b2 &&& 15) <<< 1) ||| (b3 >>> 7)), b32char ((b3 >>> 2) &&& 31),
       b32char ((b3 &&& 3) <<< 3), '=']
  | b0 :: b1 :: b2 :: b3 :: b4 :: rest =>
      [b32char (b0 >>> 3), b32char (((b0 &&& 7) <<< 2) ||| (b1 >>> 6)),
       b32char ((b1 >>> 1) &&& 31), b32char (((b1 &&& 1) <<< 4) ||| (b2 >>> 4)),
       b32char (((b2 &&& 15) <<< 1) ||| (b3 >>> 7)), b32char ((b3 >>> 2) &&& 31),
       b32char (((b3 &&& 3) <<< 3) ||| (b4 >>> 5)), b32char (b4 &&& 31)]
      ++ b32groups rest

/-- Python `.rstrip('=')`. -/
def rstripPad (cs : List Char) : List Char :=
  (cs.reverse.dropWhile (fun c => c = '=')).reverse

/-- The canonical CID string for a byte list: base32-encode, lower-case,
strip trailing padding, prepend the multibase prefix `b`. -/
def cidStr (bs : List Nat) : String :=
  String.mk ('b' :: rstripPad ((b32groups bs).map Char.toLower))

/-- `bytes_to_cid` (fix_cid_corruption.py lines 64-102, manual path):
validates the 4-byte header, the total length, and that every element is
a byte, then encodes all 36 bytes.  Raising `ValueError` is modelled as
`Except.error`. -/
def bytes_to_cid (byte_array : List Nat) : Except String String :=
  match byte_array with
  | version :: codec :: hash_fn :: hash_len :: _ =>
      if version ≠ 1 then .error "Unsupported CID version"
      else if codec ≠ 85 then .error "Unsupported codec"
      else if hash_fn ≠ 18 then .error "Unsupported hash function"
      else if hash_len ≠ 32 then .error "Invalid hash length"
      else if byte_array.length ≠ hash_len + 4 then .error "Byte array length mismatch"
      else if byte_array.all (fun b => b < 256) then .ok (cidStr byte_array)
      else .error "byte value out of range"
  | _ => .error "Invalid CID byte array: too short"

/-! ### JSON documents and the repair engine (fix_cid_corruption.py, fix_json_cids) -/

/-- JSON values as produced by `json.loads`.  Numbers are modelled as
integers (the only numbers relevant to corrupted references); booleans
are kept distinct from numbers. -/
inductive J where
  | null : J
  | bool (b : Bool) : J
  | num (n : Int) : J
  | str (s : String) : J
  | arr (xs : List J) : J
  | obj (fields : List (String × J)) : J

/-- The numeric value of a JSON node, if it is a number. -/
def jnum : J → Option Int
  | J.num n => some n
  | _ => none

/-- One element of a Python list passed to `bytes()`: an integer in
`[0, 256)`; anything else makes `bytes()` raise. -/
def jnumByte : J → Option Nat
  | J.num n => if 0 ≤ n ∧ n < 256 then some n.toNat else none
  | _ => none

def toBytes : List J → Option (List Nat)
  | [] => some []
  | x :: xs =>
      match jnumByte x, toBytes xs with
      | some b, some bs => some (b :: bs)
      | _, _ => none

/-- `bytes_to_cid` applied to a decoded JSON list, as the repair engine
calls it: the four header fields are compared numerically, the length is
checked, and the `bytes()` conversion requires every element to be a
byte-valued integer. -/
def bytes_to_cid_j (l : List J) : Except String String :=
  if l.length < 4 then .error "Invalid CID byte array: too short"
  else if jnum (l.getD 0 J.null) ≠ some 1 then .error "Unsupported CID version"
  else if jnum (l.getD 1 J.null) ≠ some 85 then .error "Unsupported codec"
  else if jnum (l.getD 2 J.null) ≠ some 18 then .error "Unsupported hash function"
  else if jnum (l.getD 3 J.null) ≠ some 32 then .error "Invalid hash length"
  else if l.length ≠ 36 then .error "Byte array length mismatch"
  else
    match toBytes l with
    | some bs => .ok (cidStr bs)
    | none => .error "byte value out of range"

/-- Python `'ref' in obj and isinstance(obj['ref'], list)`: the value of
the first `"ref"` key, when that value is a list (of any length). -/
def findRef (fields : List (String × J)) : Option (List J) :=
  match fields.find? (fun kv => kv.1 = "ref") with
  | some (_, J.arr l) => some l
  | _ => none

mutual

/-- `fix_recursive` (fix_cid_corruption.py lines 122-146).  Returns the
rewritten node together with the number of fixes and the number of
warnings emitted below it.  At a mapping node: when a `"ref"` key holds a
list, conversion is attempted; on success the value becomes
`{"$link": cid}` and the fix counter grows, on failure a warning is
emitted and the node is left in place.  The dict comprehension then
recurses into every value; on a freshly inserted link object the
recursion is the identity (theorem fix_link below), so `fix_fields_with`
emits the link directly and recurses into the remaining values. -/
def fix_recursive : J → J × Nat × Nat
  | J.obj fields =>
      match findRef fields with
      | some l =>
          match bytes_to_cid_j l with
          | .ok cid_string =>
              let link := J.obj [("$link", J.str cid_string)]
              let r := fix_fields_with fields link
              (J.obj r.1, r.2.1 + 1, r.2.2)
          | .error _ =>
              let r := fix_fields fields
              (J.obj r.1, r.2.1, r.2.2 + 1)
      | none =>
          let r := fix_fields fields
          (J.obj r.1, r.2.1, r.2.2)
  | J.arr xs =>
      let r := fix_list xs
      (J.arr r.1, r.2)
  | x => (x, 0, 0)

/-- The dict comprehension `{k: fix_recursive(v) for k, v in obj.items()}`. -/
def fix_fields : List (String × J) → List (String × J) × Nat × Nat
  | [] => ([], 0, 0)
  | (k, v) :: rest =>
      let rv := fix_recursive v
      let rr := fix_fields rest
      ((k, rv.1) :: rr.1, rv.2.1 + rr.2.1, rv.2.2 + rr.2.2)

/-- The dict comprehension over the mapping after `obj['ref']` was
replaced by `link`: the first `"ref"` entry keeps its position and holds
`link` (on which `fix_recursive` is the identity), all other values are
repaired recursively. -/
def fix_fields_with : List (String × J) → J → List (String × J) × Nat × Nat
  | [], _ => ([], 0, 0)
  | (k, v) :: rest, link =>
      if k = "ref" then
        let rr := fix_fields rest
        ((k, link) :: rr.1, rr.2)
      else
        let rv := fix_recursive v
        let rr := fix_fields_with rest link
        ((k, rv.1) :: rr.1, rv.2.1 + rr.2.1, rv.2.2 + rr.2.2)

/-- The list comprehension `[fix_recursive(item) for item in obj]`. -/
def fix_list : List J → List J × Nat × Nat
  | [] => ([], 0, 0)
  | x :: rest =>
      let rx := fix_recursive x
      let rr := fix_list rest
      (rx.1 :: rr.1, rx.2.1 + rr.2.1, rx.2.2 + rr.2.2)

end

/-- `fix_json_cids` (fix_cid_corruption.py lines 105-151), at the level
of decoded documents: the repaired document and the fix count. -/
def fix_json_cids (data : J) : J × Nat :=
  let r := fix_recursive data
  (r.1, r.2.1)

/-- The number of "Warning: Failed to convert CID" messages printed while
repairing a document. -/
def repairWarnings (data : J) : Nat := (fix_recursive data).2.2

/-! ### Deep equality away from converted references -/

/-- Is `v2` exactly the canonical link object `{"$link": s}`? -/
def isLinkObj (v2 : J) (s : String) : Bool :=
  match v2 with
  | J.obj [(k, J.str t)] => decide (k = "$link") && decide (t = s)
  | _ => false

/-- Does the pair `(v, v2)` witness a successful reference conversion:
`v` a list whose conversion succeeds with string `s`, and `v2` the link
object `{"$link": s}`? -/
def refConverted (v v2 : J) : Bool :=
  match v with
  | J.arr l =>
      match bytes_to_cid_j l with
      | .ok s => isLinkObj v2 s
      | .error _ => false
  | _ => false

mutual

/-- Deep equality of two documents except that, under a `"ref"` key, a
successfully converted byte list may be replaced by its canonical link
object.  Everything else — key order, sequence order, scalars — must
match exactly. -/
def agree : J → J → Bool
  | J.null, J.null => true
  | J.bool a, J.bool b => a = b
  | J.num a, J.num b => a = b
  | J.str a, J.str b => a = b
  | J.arr xs, J.arr ys => agree_list xs ys
  | J.obj fs, J.obj gs => agree_fields fs gs
  | _, _ => false

def agree_list : List J → List J → Bool
  | [], [] => true
  | x :: xs, y :: ys => agree x y && agree_list xs ys
  | _, _ => false

def agree_fields : List (String × J) → List (String × J) → Bool
  | [], [] => true
  | (k, v) :: fs, (k2, v2) :: gs =>
      decide (k = k2) && (agree v v2 || (decide (k = "ref") && refConverted v v2))
        && agree_fields fs gs
  | _, _ => false

end

/-! ### Batch migration driver (fix_cid_corruption.py, migrate) -/

/-- A stored record body, abstracted by the outcome of `json.loads`:
either the decoded document or the parse error raised. -/
inductive Body where
  | valid (doc : J) : Body
  | invalid (err : String) : Body

/-- A row of the `record` table: its `uri` key, its body, and whether its
stored text matches the SQL pattern `'%"ref":[%'`. -/
structure Row where
  uri : String
  body : Body
  likeRef : Bool

/-- The mutable state of the migration loop: the resume cursor, the batch
counters, the error log, the issued UPDATE statements, and the number of
COMMITs. -/
structure MigState where
  lastUri : Option String
  batchFixed : Nat
  batchCids : Nat
  errors : List (String × String)
  writes : List (String × J)
  commits : Nat

/-- `fix_json_cids(json_str)` on a stored body: a parse failure raises. -/
def fixBody : Body → Except String (J × Nat)
  | Body.valid doc => .ok (fix_json_cids doc)
  | Body.invalid e => .error e

/-- One iteration of the `for uri, json_str in records` loop
(fix_cid_corruption.py lines 256-277): on success with fixes, write back
(live mode only) and bump the counters; the cursor advances to this
record's uri in every branch, including the exception handler, which
also logs the error. -/
def processRecord (dryRun : Bool) (st : MigState) (r : Row) : MigState :=
  match fixBody r.body with
  | .ok (fixedDoc, numFixes) =>
      if 0 < numFixes then
        { st with
          writes := if dryRun then st.writes else st.writes ++ [(r.uri, fixedDoc)],
          batchFixed := st.batchFixed + 1,
          batchCids := st.batchCids + numFixes,
          lastUri := some r.uri }
      else { st with lastUri := some r.uri }
  | .error e => { st with errors := st.errors ++ [(r.uri, e)], lastUri := some r.uri }

/-- The whole per-page loop. -/
def processBatch (dryRun : Bool) (st : MigState) (records : List Row) : MigState :=
  records.foldl (processRecord dryRun) st

/-- A batch: process the page, then `conn.commit()` unless dry-run. -/
def runBatch (dryRun : Bool) (st : MigState) (records : List Row) : MigState :=
  let st2 := processBatch dryRun st records
  if dryRun then st2 else { st2 with commits := st2.commits + 1 }

/-- `get_broken_records_batch` (fix_cid_corruption.py lines 154-185):
rows matching the LIKE pattern with `uri` strictly above the cursor,
ordered by `uri`, limited. -/
def get_broken_records_batch (db : List Row) (last_uri : Option String) (limit : Nat) :
    List Row :=
  ((db.filter fun r =>
      r.likeRef && match last_uri with
                   | some k => decide (k < r.uri)
                   | none => true).mergeSort
    (fun a b => decide (a.uri ≤ b.uri))).take limit

/-- The UPDATE a record contributes in live mode: its uri and repaired
document when the fix count is positive, nothing otherwise. -/
def pickWrite (r : Row) : Option (String × J) :=
  match fixBody r.body with
  | .ok (doc, n) => if 0 < n then some (r.uri, doc) else none
  | .error _ => none

/-- An initial driver state. -/
def st0 : MigState := ⟨none, 0, 0, [], [], 0⟩

/-- A record whose body fails to parse. -/
def rowBad : Row := ⟨"u1", Body.invalid "boom", true⟩

/-- A well-formed candidate row. -/
def rowDb : Row := ⟨"b", Body.valid J.null, true⟩

/-! ### Reconciliation checker (repo_integrity_checker.py) -/

/-- Python `uri.split('/')[-1]`: everything after the last slash. -/
def rkey_of (uri : String) : String :=
  String.mk ((uri.data.reverse.takeWhile (fun c => c ≠ '/')).reverse)

/-- A record listed by the authoritative source: its uri and the optional
`value.createdAt` timestamp string. -/
structure SrcRec where
  uri : String
  createdAt : Option String
  deriving DecidableEq

/-- `indexed_records.get(collection, set())`: the key set the secondary
index holds for a collection. -/
def indexedKeysFor (indexed : List (String × List String)) (c : String) : List String :=
  ((indexed.find? (fun kv => kv.1 = c)).map (fun kv => kv.2)).getD []

/-- The step-3 classification (repo_integrity_checker.py lines 319-327):
a fetched record joins the missing list when its rkey is truthy and not
in the indexed key set. -/
def missingFor (indexed : List (String × List String)) (c : String)
    (recs : List SrcRec) : List SrcRec :=
  recs.filter (fun r =>
    decide (rkey_of r.uri ≠ "") && !((indexedKeysFor indexed c).contains (rkey_of r.uri)))

/-- The per-collection missing sets for a whole fetch. -/
def computeMissing (pds : List (String × List SrcRec))
    (indexed : List (String × List String)) : List (String × List SrcRec) :=
  pds.map (fun ce => (ce.1, missingFor indexed ce.1 ce.2))

/-! ### Bounded reverse scan of the delivery log (verify_missing_records.py) -/

/-- A delivery-log entry: message id, originating identity, record path. -/
structure RMsg where
  id : Nat
  did : String
  path : String
  deriving DecidableEq

/-- Python `'/' in path`. -/
def hasSlash (s : String) : Bool := s.data.any (fun c => c = '/')

/-- `XREVRANGE stream max cursor COUNT count` on a stream stored
newest-first: entries with id at most the cursor (inclusive), newest
first, at most `count` of them. -/
def xrevrange (msgs : List RMsg) (cursor : Option Nat) (count : Nat) : List RMsg :=
  (match cursor with
   | none => msgs
   | some c => msgs.filter (fun m => m.id ≤ c)).take count

/-- Python dict assignment `found[k] = v`: update in place if the key is
present, append otherwise. -/
def upsert (found : List (String × Nat)) (k : String) (v : Nat) : List (String × Nat) :=
  if found.any (fun kv => kv.1 = k) then
    found.map (fun kv => if kv.1 = k then (k, v) else kv)
  else found ++ [(k, v)]

/-- The per-message body of the scan loop (verify_missing_records.py
lines 44-57): skip foreign identities, require a slash in the path, and
record the trailing path segment when it is a searched key. -/
def scanMsg (did : String) (rkeys : List String) (found : List (String × Nat))
    (m : RMsg) : List (String × Nat) :=
  if m.did = did then
    if hasSlash m.path then
      if rkeys.contains (rkey_of m.path) then upsert found (rkey_of m.path) m.id
      else found
    else found
  else found

def scanChunk (did : String) (rkeys : List String) (found : List (String × Nat))
    (messages : List RMsg) : List (String × Nat) :=
  messages.foldl (scanMsg did rkeys) found

/-- The `for chunk in range(chunks_to_check)` loop: fetch a batch below
the cursor, stop on an empty batch, otherwise scan it, move the cursor to
the batch's last id, and count the scanned messages. -/
def searchLoop (msgs : List RMsg) (did : String) (rkeys : List String)
    (batch_size : Nat) : Nat → Option Nat → List (String × Nat) → Nat →
    List (String × Nat) × Nat
  | 0, _, found, scanned => (found, scanned)
  | chunks + 1, cursor, found, scanned =>
      let messages := xrevrange msgs cursor batch_size
      if messages.isEmpty then (found, scanned)
      else
        searchLoop msgs did rkeys batch_size chunks
          (some ((messages.getLastD ⟨0, "", ""⟩).id))
          (scanChunk did rkeys found messages)
          (scanned + messages.length)

/-- `search_stream_for_rkeys` (verify_missing_records.py lines 17-68):
the found map and the total number of messages scanned, with the chunk
budget `min(20, stream_len // batch_size + 1)`. -/
def search_stream_for_rkeys (msgs : List RMsg) (rkeys : List String) (did : String)
    (batch_size : Nat) : List (String × Nat) × Nat :=
  searchLoop msgs did rkeys batch_size (min 20 (msgs.length / batch_size + 1)) none [] 0

/-- A two-message stream whose newest message already matches the only
searched key. -/
def demoMsgs : List RMsg := [⟨2, "d", "/c/r"⟩, ⟨1, "d", "/c/x"⟩]

/-- A stream with two matches for the same key, newest first. -/
def demoMsgs2 : List RMsg := [⟨3, "d", "/c/r"⟩, ⟨2, "d", "/c/r"⟩]

/-- A found entry `p` is justified by log entry `m`: the key was
searched, the identity matches, the path has a slash and ends in the
key, and the id was recorded. -/
def matchesKey (did : String) (rkeys : List String) (p : String × Nat) (m : RMsg) : Prop :=
  rkeys.contains p.1 = true ∧ p.1 = rkey_of m.path ∧ p.2 = m.id
    ∧ m.did = did ∧ hasSlash m.path = true

/-! ### Date-range filtering (repo_integrity_checker.py, main, lines 329-347) -/

/-- The `missing_filtered` loop for one collection: keep a record only if
it has a `createdAt` string that parses (`parse` models
`datetime.fromisoformat` plus offset-compatible comparison; the bare
`except: pass` maps to `none`) to a timestamp within the window. -/
def filter_missing_by_date (parse : String → Option Int) (start_dt end_dt : Int)
    (recs : List SrcRec) : List SrcRec :=
  recs.filter (fun r =>
    match r.createdAt with
    | none => false
    | some s =>
        match parse s with
        | none => false
        | some t => decide (start_dt ≤ t) && decide (t ≤ end_dt))

/-- The whole filtered missing structure. -/
def filter_missing_map (parse : String → Option Int) (start_dt end_dt : Int)
    (missing : List (String × List SrcRec)) : List (String × List SrcRec) :=
  missing.map (fun ce => (ce.1, filter_missing_by_date parse start_dt end_dt ce.2))

/-- The rkeys later searched for in the delivery log
(repo_integrity_checker.py lines 180-185): the truthy rkeys of the
records in the (filtered) missing structure. -/
def extract_rkeys (missing : List (String × List SrcRec)) : List String :=
  (missing.flatMap (fun ce => ce.2.map (fun r => rkey_of r.uri))).filter
    (fun rk => rk ≠ "")

/-- A parse function for concrete witnesses. -/
def parse0 : String → Option Int := fun _ => some 5

/-! ## Theorems -/

/-! ### Codec lemmas -/

theorem b32chars_length : b32chars.length = 32 := rfl

theorem toLower_b32char_ne (n : Nat) : Char.toLower (b32char n) ≠ '=' := by
  by_cases h : n < 32
  · have hall : ∀ m, m < 32 → Char.toLower (b32char m) ≠ '=' := by decide
    exact hall n h
  · unfold b32char
    rw [List.getD_eq_default _ _ (by rw [b32chars_length]; omega)]
    decide

theorem rstripPad_append (xs ys : List Char) (h : rstripPad ys ≠ []) :
    rstripPad (xs ++ ys) = xs ++ rstripPad ys := by
  unfold rstripPad at *
  rw [List.reverse_append, List.dropWhile_append]
  have hne : (List.dropWhile (fun c => c = '=') ys.reverse).isEmpty = false := by
    cases hcase : List.dropWhile (fun c => c = '=') ys.reverse with
    | nil => exact absurd (by rw [hcase]; rfl) h
    | cons a l => rfl
  rw [hne]
  simp

theorem rstrip_two (c0 c1 : Char) (h : c1 ≠ '=') :
    rstripPad [c0, c1, '=', '=', '=', '=', '=', '='] = [c0, c1] := by
  simp [rstripPad, List.dropWhile, h]

theorem b32_len_aux : ∀ bs : List Nat, bs.length % 5 = 1 →
    (rstripPad ((b32groups bs).map Char.toLower)).length = bs.length / 5 * 8 + 2
  | [], h => by simp at h
  | [b0], _ => by
      have h1 := toLower_b32char_ne ((b0 &&& 7) <<< 2)
      simp only [b32groups, List.map]
      rw [show Char.toLower '=' = '=' from rfl, rstrip_two _ _ h1]
      simp only [List.length_cons, List.length_nil, List.length_singleton]
  | [b0, b1], h => by simp at h
  | [b0, b1, b2], h => by simp at h
  | [b0, b1, b2, b3], h => by simp at h
  | b0 :: b1 :: b2 :: b3 :: b4 :: rest, h => by
      have h5 : rest.length % 5 = 1 := by
        simp only [List.length_cons] at h
        omega
      have ih := b32_len_aux rest h5
      have hne : rstripPad ((b32groups rest).map Char.toLower) ≠ [] := by
        intro hnil
        rw [hnil] at ih
        simp at ih
      have hexp : b32groups (b0 :: b1 :: b2 :: b3 :: b4 :: rest)
          = [b32char (b0 >>> 3), b32char (((b0 &&& 7) <<< 2) ||| (b1 >>> 6)),
             b32char ((b1 >>> 1) &&& 31), b32char (((b1 &&& 1) <<< 4) ||| (b2 >>> 4)),
             b32char (((b2 &&& 15) <<< 1) ||| (b3 >>> 7)), b32char ((b3 >>> 2) &&& 31),
             b32char (((b3 &&& 3) <<< 3) ||| (b4 >>> 5)), b32char (b4 &&& 31)]
            ++ b32groups rest := rfl
      rw [hexp, List.map_append, rstripPad_append _ _ hne, List.length_append, ih]
      simp only [List.length_cons, List.length_map, List.length_nil]
      omega

theorem cidStr_length_36 (bs : List Nat) (h : bs.length = 36) : (cidStr bs).length = 59 := by
  have := b32_len_aux bs (by rw [h])
  rw [h] at this
  simp only [cidStr]
  show ('b' :: rstripPad ((b32groups bs).map Char.toLower)).length = 59
  rw [List.length_cons, this]

/-- C1: for every valid 36-byte identifier `[1, 0x55, 0x12, 32, d0..d31]`
(all entries bytes), `bytes_to_cid` succeeds and returns exactly the
string obtained by base32-encoding all 36 bytes with the RFC 4648
alphabet, lower-casing, stripping the trailing padding, and prepending
`b`; and that string always has length exactly 59. -/
theorem cid_encode_valid (d : List Nat) (h32 : d.length = 32) (hb : ∀ b ∈ d, b < 256) :
    bytes_to_cid (1 :: 85 :: 18 :: 32 :: d) = Except.ok (cidStr (1 :: 85 :: 18 :: 32 :: d))
    ∧ (cidStr (1 :: 85 :: 18 :: 32 :: d)).length = 59 := by
  constructor
  · have hall : (1 :: 85 :: 18 :: 32 :: d).all (fun b => b < 256) = true := by
      simp only [List.all_cons, Bool.and_eq_true, decide_eq_true_eq]
      refine ⟨by norm_num, by norm_num, by norm_num, by norm_num, ?_⟩
      exact List.all_eq_true.mpr fun b hbm => decide_eq_true (hb b hbm)
    simp only [bytes_to_cid, List.length_cons, h32, hall]
    norm_num
  · exact cidStr_length_36 _ (by simp [h32])

/-- Witness for C1 at the all-zero digest. -/
theorem cid_encode_valid_witness :
    bytes_to_cid (1 :: 85 :: 18 :: 32 :: List.replicate 32 0)
      = Except.ok (cidStr (1 :: 85 :: 18 :: 32 :: List.replicate 32 0))
    ∧ (cidStr (1 :: 85 :: 18 :: 32 :: List.replicate 32 0)).length = 59 :=
  cid_encode_valid (List.replicate 32 0) (by simp)
    (fun b hbm => by simp at hbm; omega)

theorem except_isOk_error (e : String) : (Except.error e : Except String String).isOk = false := rfl

theorem except_isOk_ok (s : String) : (Except.ok s : Except String String).isOk = true := rfl

/-- C2: on a byte sequence, the validation phase of `bytes_to_cid`
succeeds if and only if the length is 36 and the four header bytes are
`1`, `0x55`, `0x12`, `32`; in particular every 35-byte input fails.
Failure produces only an error value, never a partial result. -/
theorem cid_decode_reject_iff (bs : List Nat) (hb : ∀ b ∈ bs, b < 256) :
    ((bytes_to_cid bs).isOk = true ↔
      (bs.length = 36 ∧ bs.getD 0 0 = 1 ∧ bs.getD 1 0 = 85 ∧ bs.getD 2 0 = 18 ∧ bs.getD 3 0 = 32))
    ∧ (bs.length = 35 → (bytes_to_cid bs).isOk = false) := by
  have main : (bytes_to_cid bs).isOk = true ↔
      (bs.length = 36 ∧ bs.getD 0 0 = 1 ∧ bs.getD 1 0 = 85 ∧ bs.getD 2 0 = 18
        ∧ bs.getD 3 0 = 32) := by
    match bs with
    | [] => simp [bytes_to_cid, except_isOk_error]
    | [b0] => simp [bytes_to_cid, except_isOk_error]
    | [b0, b1] => simp [bytes_to_cid, except_isOk_error]
    | [b0, b1, b2] => simp [bytes_to_cid, except_isOk_error]
    | b0 :: b1 :: b2 :: b3 :: rest =>
      have hall : (b0 :: b1 :: b2 :: b3 :: rest).all (fun b => b < 256) = true :=
        List.all_eq_true.mpr fun b hbm => decide_eq_true (hb b hbm)
      simp only [bytes_to_cid, List.getD_cons_zero, List.getD_cons_succ, List.length_cons]
      split_ifs with h1 h2 h3 h4 h5 <;>
        first
          | exact absurd hall (by assumption)
          | (simp only [except_isOk_error, except_isOk_ok]; simp; omega)
  refine ⟨main, fun h35 => ?_⟩
  by_contra hok
  have := (main.mp (by revert hok; cases (bytes_to_cid bs).isOk <;> simp)).1
  omega

/-- Witness for C2: a 35-byte input is rejected. -/
theorem cid_decode_reject_iff_witness :
    (bytes_to_cid (List.replicate 35 0)).isOk = false :=
  (cid_decode_reject_iff (List.replicate 35 0)
    (fun b hbm => by simp at hbm; omega)).2 (by simp)

/-! ### Repair engine lemmas -/

theorem fix_fields_doc (fs : List (String × J)) :
    (fix_fields fs).1 = fs.map (fun kv => (kv.1, (fix_recursive kv.2).1)) := by
  induction fs with
  | nil => rfl
  | cons kv rest ih =>
      cases kv with
      | mk k v => simp [fix_fields, ih]

theorem fix_list_doc (xs : List J) :
    (fix_list xs).1 = xs.map (fun x => (fix_recursive x).1) := by
  induction xs with
  | nil => rfl
  | cons x rest ih => simp [fix_list, ih]

theorem fix_arr (xs : List J) :
    fix_recursive (J.arr xs) = (J.arr (fix_list xs).1, (fix_list xs).2) := by
  simp [fix_recursive]

theorem fix_obj_isObj (fs : List (String × J)) :
    ∃ gs, (fix_recursive (J.obj fs)).1 = J.obj gs := by
  cases hf : findRef fs with
  | none => exact ⟨(fix_fields fs).1, by simp [fix_recursive, hf]⟩
  | some l =>
      cases hcid : bytes_to_cid_j l with
      | ok s =>
          exact ⟨(fix_fields_with fs (J.obj [("$link", J.str s)])).1,
            by simp [fix_recursive, hf, hcid]⟩
      | error e => exact ⟨(fix_fields fs).1, by simp [fix_recursive, hf, hcid]⟩

theorem jnum_fix (x : J) : jnum (fix_recursive x).1 = jnum x := by
  cases x with
  | null => rfl
  | bool b => rfl
  | num n => rfl
  | str s => rfl
  | arr xs => simp [fix_arr, jnum]
  | obj fs =>
      obtain ⟨gs, hgs⟩ := fix_obj_isObj fs
      rw [hgs]
      rfl

theorem jnum_none_byte (x : J) (h : jnum x = none) : jnumByte x = none := by
  cases x <;> simp_all [jnum, jnumByte]

theorem jnum_some_eq (x : J) (n : Int) (h : jnum x = some n) : x = J.num n := by
  cases x <;> simp_all [jnum]

theorem jnumByte_fix (x : J) : jnumByte (fix_recursive x).1 = jnumByte x := by
  cases hn : jnum x with
  | none =>
      rw [jnum_none_byte _ (by rw [jnum_fix, hn]), jnum_none_byte _ hn]
  | some n =>
      rw [jnum_some_eq _ _ (by rw [jnum_fix, hn] : jnum (fix_recursive x).1 = some n),
        jnum_some_eq _ _ hn]

theorem toBytes_fix (l : List J) : toBytes (fix_list l).1 = toBytes l := by
  rw [fix_list_doc]
  induction l with
  | nil => rfl
  | cons x rest ih => simp [toBytes, jnumByte_fix, ih]

theorem fix_list_length (l : List J) : (fix_list l).1.length = l.length := by
  rw [fix_list_doc, List.length_map]

theorem jnum_getD_fix (l : List J) (i : Nat) :
    jnum ((fix_list l).1.getD i J.null) = jnum (l.getD i J.null) := by
  rw [fix_list_doc]
  rcases Nat.lt_or_ge i l.length with h | h
  · rw [List.getD_eq_getElem _ _ (by simpa using h), List.getD_eq_getElem _ _ h,
      List.getElem_map]
    exact jnum_fix _
  · rw [List.getD_eq_default _ _ (by simpa using h), List.getD_eq_default _ _ h]

theorem bytes_to_cid_j_fix (l : List J) :
    bytes_to_cid_j (fix_list l).1 = bytes_to_cid_j l := by
  simp only [bytes_to_cid_j, fix_list_length, jnum_getD_fix, toBytes_fix]

theorem fix_link (s : String) :
    fix_recursive (J.obj [("$link", J.str s)]) = (J.obj [("$link", J.str s)], 0, 0) := by
  simp [fix_recursive, findRef, fix_fields, List.find?]

theorem findRef_fix_fields (fs : List (String × J)) :
    findRef (fix_fields fs).1 = (findRef fs).map (fun l => (fix_list l).1) := by
  rw [fix_fields_doc]
  unfold findRef
  rw [List.find?_map]
  have hp : ((fun kv : String × J => decide (kv.1 = "ref")) ∘
      fun kv : String × J => (kv.1, (fix_recursive kv.2).1)) =
      fun kv : String × J => decide (kv.1 = "ref") := rfl
  rw [hp]
  cases hf : fs.find? (fun kv => decide (kv.1 = "ref")) with
  | none => rfl
  | some kv =>
      cases kv with
      | mk k v =>
        cases v with
        | null => rfl
        | bool b => rfl
        | num n => rfl
        | str s => rfl
        | arr l => simp [fix_arr]
        | obj gs =>
            obtain ⟨hs, hgs⟩ := fix_obj_isObj gs
            simp [hgs]

theorem findRef_fix_fields_with (fs : List (String × J)) (gl : List (String × J)) :
    findRef (fix_fields_with fs (J.obj gl)).1 = none := by
  induction fs with
  | nil => rfl
  | cons kv rest ih =>
      cases kv with
      | mk k v =>
        by_cases hk : k = "ref"
        · simp [fix_fields_with, hk, findRef, List.find?]
        · have hstep : (fix_fields_with ((k, v) :: rest) (J.obj gl)).1
              = (k, (fix_recursive v).1) :: (fix_fields_with rest (J.obj gl)).1 := by
            simp [fix_fields_with, hk]
          rw [hstep]
          unfold findRef at ih ⊢
          simp [List.find?, hk]
          exact ih

/-! ### Idempotence of repair -/

mutual

theorem idem_j : ∀ d : J, (fix_recursive (fix_recursive d).1).2.1 = 0
  | J.null => rfl
  | J.bool b => rfl
  | J.num n => rfl
  | J.str s => rfl
  | J.arr xs => by
      have ih := idem_list xs
      rw [fix_arr]
      show (fix_recursive (J.arr (fix_list xs).1)).2.1 = 0
      rw [fix_arr]
      exact ih
  | J.obj fs => by
      cases hf : findRef fs with
      | none =>
          have h1 : (fix_recursive (J.obj fs)).1 = J.obj (fix_fields fs).1 := by
            simp [fix_recursive, hf]
          rw [h1]
          have h2 : findRef (fix_fields fs).1 = none := by
            rw [findRef_fix_fields, hf]; rfl
          have ih := idem_fields fs
          simp [fix_recursive, h2, ih]
      | some l =>
          cases hcid : bytes_to_cid_j l with
          | ok s =>
              have h1 : (fix_recursive (J.obj fs)).1
                  = J.obj (fix_fields_with fs (J.obj [("$link", J.str s)])).1 := by
                simp [fix_recursive, hf, hcid]
              rw [h1]
              have h2 := findRef_fix_fields_with fs [("$link", J.str s)]
              have ih := idem_fields_with fs s
              simp [fix_recursive, h2, ih]
          | error e =>
              have h1 : (fix_recursive (J.obj fs)).1 = J.obj (fix_fields fs).1 := by
                simp [fix_recursive, hf, hcid]
              rw [h1]
              have h2 : findRef (fix_fields fs).1 = some (fix_list l).1 := by
                rw [findRef_fix_fields, hf]; rfl
              have h3 : bytes_to_cid_j (fix_list l).1 = .error e := by
                rw [bytes_to_cid_j_fix, hcid]
              have ih := idem_fields fs
              simp [fix_recursive, h2, h3, ih]

theorem idem_fields : ∀ fs : List (String × J), (fix_fields (fix_fields fs).1).2.1 = 0
  | [] => rfl
  | (k, v) :: rest => by
      have ihv := idem_j v
      have ihr := idem_fields rest
      simp [fix_fields, ihv, ihr]

theorem idem_fields_with : ∀ (fs : List (String × J)) (s : String),
    (fix_fields (fix_fields_with fs (J.obj [("$link", J.str s)])).1).2.1 = 0
  | [], _ => rfl
  | (k, v) :: rest, s => by
      by_cases hk : k = "ref"
      · have ihr := idem_fields rest
        simp [fix_fields_with, hk, fix_fields, fix_link s, ihr]
      · have ihv := idem_j v
        have ihr := idem_fields_with rest s
        simp [fix_fields_with, hk, fix_fields, ihv, ihr]

theorem idem_list : ∀ xs : List J, (fix_list (fix_list xs).1).2.1 = 0
  | [] => rfl
  | x :: rest => by
      have ihx := idem_j x
      have ihr := idem_list rest
      simp [fix_list, ihx, ihr]

end

/-- C4: repair is idempotent.  For every document, running
`fix_json_cids` on the repaired document of a first run reports a fix
count of 0: replaced references have become `{"$link": string}` mappings
that no longer match the corrupted shape, and references whose
conversion failed fail again without incrementing the counter. -/
theorem repair_idempotent (d : J) : (fix_json_cids (fix_json_cids d).1).2 = 0 := by
  simpa [fix_json_cids] using idem_j d

/-! ### Structure preservation -/

theorem findRef_head_ref (v : J) (rest : List (String × J)) (l : List J)
    (hf : findRef (("ref", v) :: rest) = some l) : v = J.arr l := by
  unfold findRef at hf
  simp [List.find?] at hf
  cases v <;> simp_all

theorem findRef_tail (k : String) (v : J) (rest : List (String × J)) (hk : ¬ k = "ref") :
    findRef ((k, v) :: rest) = findRef rest := by
  unfold findRef
  simp [List.find?, hk]

mutual

theorem agree_fix_j : ∀ d : J, agree d (fix_recursive d).1 = true
  | J.null => rfl
  | J.bool b => by simp [fix_recursive, agree]
  | J.num n => by simp [fix_recursive, agree]
  | J.str s => by simp [fix_recursive, agree]
  | J.arr xs => by
      rw [fix_arr]
      show agree_list xs (fix_list xs).1 = true
      exact agree_fix_list xs
  | J.obj fs => by
      cases hf : findRef fs with
      | none =>
          have h1 : (fix_recursive (J.obj fs)).1 = J.obj (fix_fields fs).1 := by
            simp [fix_recursive, hf]
          rw [h1]
          show agree_fields fs (fix_fields fs).1 = true
          exact agree_fix_fields fs
      | some l =>
          cases hcid : bytes_to_cid_j l with
          | ok s =>
              have h1 : (fix_recursive (J.obj fs)).1
                  = J.obj (fix_fields_with fs (J.obj [("$link", J.str s)])).1 := by
                simp [fix_recursive, hf, hcid]
              rw [h1]
              show agree_fields fs (fix_fields_with fs (J.obj [("$link", J.str s)])).1 = true
              exact agree_fix_fields_with fs l s hf hcid
          | error e =>
              have h1 : (fix_recursive (J.obj fs)).1 = J.obj (fix_fields fs).1 := by
                simp [fix_recursive, hf, hcid]
              rw [h1]
              show agree_fields fs (fix_fields fs).1 = true
              exact agree_fix_fields fs

theorem agree_fix_list : ∀ xs : List J, agree_list xs (fix_list xs).1 = true
  | [] => rfl
  | x :: rest => by
      have ihx := agree_fix_j x
      have ihr := agree_fix_list rest
      simp [fix_list, agree_list, ihx, ihr]

theorem agree_fix_fields : ∀ fs : List (String × J), agree_fields fs (fix_fields fs).1 = true
  | [] => rfl
  | (k, v) :: rest => by
      have ihv := agree_fix_j v
      have ihr := agree_fix_fields rest
      simp [fix_fields, agree_fields, ihv, ihr]

theorem agree_fix_fields_with : ∀ (fs : List (String × J)) (l : List J) (s : String),
    findRef fs = some l → bytes_to_cid_j l = .ok s →
    agree_fields fs (fix_fields_with fs (J.obj [("$link", J.str s)])).1 = true
  | [], _, _, hf, _ => by simp [findRef, List.find?] at hf
  | (k, v) :: rest, l, s, hf, hcid => by
      by_cases hk : k = "ref"
      · subst hk
        have hv : v = J.arr l := findRef_head_ref v rest l hf
        subst hv
        have ihr := agree_fix_fields rest
        simp [fix_fields_with, agree_fields, refConverted, hcid, isLinkObj, ihr]
      · have hf2 : findRef rest = some l := by
          rw [← findRef_tail k v rest hk]
          exact hf
        have ihv := agree_fix_j v
        have ihr := agree_fix_fields_with rest l s hf2 hcid
        simp [fix_fields_with, hk, agree_fields, ihv, ihr]

end

/-- C5: the tree returned by repair is deep-equal to the input except at
successfully converted `"ref"` values: `agree` demands identical
constructors, scalars, sequence elements in order, and mapping keys in
order everywhere, allowing a difference only where a `"ref"` key held a
list whose conversion succeeded, in which case the output holds exactly
`{"$link": <canonical string>}`. -/
theorem repair_structure_preserved (d : J) : agree d (fix_json_cids d).1 = true := by
  simpa [fix_json_cids] using agree_fix_j d

/-! ### C3: which refs are attempted -/

theorem bytes_to_cid_j_ok_length (l : List J) (h : (bytes_to_cid_j l).isOk = true) :
    l.length = 36 := by
  unfold bytes_to_cid_j at h
  split_ifs at h with h1 h2 h3 h4 h5 h6
  · simp [except_isOk_error] at h
  · simp [except_isOk_error] at h
  · simp [except_isOk_error] at h
  · simp [except_isOk_error] at h
  · simp [except_isOk_error] at h
  · simp [except_isOk_error] at h
  · omega

/-- Counterexample to C3 as stated: in `fix_recursive` a `"ref"` whose
value is a sequence of length 0 (not 36) is still attempted: it is not
converted and not counted, but it IS warned about — one warning is
emitted, where the claim requires none. -/
theorem ref_any_list_warned_cex :
    (fix_json_cids (J.obj [("ref", J.arr [])])).2 = 0
    ∧ repairWarnings (J.obj [("ref", J.arr [])]) = 1 := ⟨rfl, rfl⟩

/-- C3 (amended): conversion is attempted whenever a mapping node has a
`"ref"` key holding a sequence of ANY length; when that sequence's
length is not 36 the conversion fails, so the node keeps its fields
(each value recursively repaired, the ref still a sequence of the same
length), the fix counter is not incremented, and exactly one warning is
emitted at this node. -/
theorem ref_non36_attempt (fs : List (String × J)) (l : List J)
    (hf : findRef fs = some l) (hlen : l.length ≠ 36) :
    fix_recursive (J.obj fs)
      = (J.obj (fix_fields fs).1, (fix_fields fs).2.1, (fix_fields fs).2.2 + 1)
    ∧ ∃ l2, findRef (fix_fields fs).1 = some l2 ∧ l2.length = l.length := by
  obtain ⟨e, he⟩ : ∃ e, bytes_to_cid_j l = .error e := by
    cases hc : bytes_to_cid_j l with
    | ok s => exact absurd (bytes_to_cid_j_ok_length l (by rw [hc]; rfl)) hlen
    | error e => exact ⟨e, rfl⟩
  refine ⟨by simp [fix_recursive, hf, he], ⟨(fix_list l).1, ?_, fix_list_length l⟩⟩
  rw [findRef_fix_fields, hf]
  rfl

/-- Witness for the amended C3 at a length-1 ref. -/
theorem ref_non36_attempt_witness :
    (fix_recursive (J.obj [("ref", J.arr [J.num 7])])
      = (J.obj (fix_fields [("ref", J.arr [J.num 7])]).1,
         (fix_fields [("ref", J.arr [J.num 7])]).2.1,
         (fix_fields [("ref", J.arr [J.num 7])]).2.2 + 1)
    ∧ ∃ l2, findRef (fix_fields [("ref", J.arr [J.num 7])]).1 = some l2
        ∧ l2.length = ([J.num 7] : List J).length) :=
  ref_non36_attempt [("ref", J.arr [J.num 7])] [J.num 7] rfl (by simp)

/-! ### Migration driver theorems -/

theorem processRecord_lastUri (dry : Bool) (st : MigState) (r : Row) :
    (processRecord dry st r).lastUri = some r.uri := by
  unfold processRecord
  cases fixBody r.body with
  | ok p =>
      cases p with
      | mk doc n => by_cases hn : 0 < n <;> simp [hn]
  | error e => rfl

theorem processBatch_lastUri : ∀ (records : List Row) (dry : Bool) (st : MigState)
    (h : records ≠ []),
    (processBatch dry st records).lastUri = some ((records.getLast h).uri)
  | [], _, _, h => absurd rfl h
  | [r], dry, st, _ => by
      simp [processBatch, processRecord_lastUri]
  | r :: r2 :: tl, dry, st, _ => by
      have ih := processBatch_lastUri (r2 :: tl) dry (processRecord dry st r) (by simp)
      simp only [processBatch, List.foldl_cons] at ih ⊢
      rw [ih]
      simp [List.getLast_cons]

theorem processBatch_error_step (dry : Bool) (st : MigState) (r : Row) (e : String)
    (ys : List Row) (hr : r.body = Body.invalid e) :
    processBatch dry st (r :: ys)
      = processBatch dry
          { st with errors := st.errors ++ [(r.uri, e)], lastUri := some r.uri } ys := by
  simp only [processBatch, List.foldl_cons]
  congr 1
  unfold processRecord fixBody
  rw [hr]

theorem get_broken_strict (db : List Row) (k : String) (limit : Nat) (r : Row)
    (hmem : r ∈ get_broken_records_batch db (some k) limit) : k < r.uri := by
  unfold get_broken_records_batch at hmem
  have h2 := List.take_subset _ _ hmem
  rw [List.mem_mergeSort] at h2
  have h3 := (List.mem_filter.mp h2).2
  simp only [Bool.and_eq_true, decide_eq_true_eq] at h3
  exact h3.2

/-- C6: in the batch loop, a record whose repair raises is caught: its
error is logged, the rest of the page is still processed from the state
with the cursor advanced to that record's key (exactly as for a
successful record, by the second conjunct the cursor after any page is
the page's last key), and a later page query returns only rows with keys
strictly greater than the cursor, so the record is never fetched
again. -/
theorem migrate_error_isolation :
    (∀ (dry : Bool) (st : MigState) (r : Row) (e : String) (ys : List Row),
       r.body = Body.invalid e →
       processBatch dry st (r :: ys)
         = processBatch dry
             { st with errors := st.errors ++ [(r.uri, e)], lastUri := some r.uri } ys)
    ∧ (∀ (dry : Bool) (st : MigState) (records : List Row) (h : records ≠ []),
       (processBatch dry st records).lastUri = some ((records.getLast h).uri))
    ∧ (∀ (db : List Row) (k : String) (limit : Nat) (r : Row),
       r ∈ get_broken_records_batch db (some k) limit → k < r.uri) :=
  ⟨fun dry st r e ys hr => processBatch_error_step dry st r e ys hr,
   fun dry st records h => processBatch_lastUri records dry st h,
   fun db k limit r hmem => get_broken_strict db k limit r hmem⟩

theorem mergeSort_singleton_row (r : Row) :
    List.mergeSort [r] (fun a b => decide (a.uri ≤ b.uri)) = [r] := by
  simp

theorem rowDb_mem : rowDb ∈ get_broken_records_batch [rowDb] (some "a") 1 := by
  unfold get_broken_records_batch
  have hfil : ([rowDb].filter fun r =>
      r.likeRef && match (some "a" : Option String) with
                   | some k => decide (k < r.uri)
                   | none => true) = [rowDb] := by
    simp [rowDb]
    decide
  rw [hfil, mergeSort_singleton_row]
  simp

/-- Witness for C6 at a one-record page with an unparseable body. -/
theorem migrate_error_isolation_witness :
    (processBatch true st0 [rowBad]
       = processBatch true
           { st0 with errors := st0.errors ++ [(rowBad.uri, "boom")], lastUri := some rowBad.uri } [])
    ∧ (processBatch true st0 [rowBad]).lastUri = some (([rowBad].getLast (by simp)).uri)
    ∧ ("a" < rowDb.uri) :=
  ⟨migrate_error_isolation.1 true st0 rowBad "boom" [] rfl,
   migrate_error_isolation.2.1 true st0 [rowBad] (by simp),
   migrate_error_isolation.2.2 [rowDb] "a" 1 rowDb rowDb_mem⟩

theorem processRecord_writes_dry (st : MigState) (r : Row) :
    (processRecord true st r).writes = st.writes := by
  unfold processRecord
  cases fixBody r.body with
  | ok p =>
      cases p with
      | mk doc n => by_cases hn : 0 < n <;> simp [hn]
  | error e => rfl

theorem processRecord_writes_live (st : MigState) (r : Row) :
    (processRecord false st r).writes = st.writes ++ (pickWrite r).toList := by
  unfold processRecord pickWrite
  cases fixBody r.body with
  | ok p =>
      cases p with
      | mk doc n => by_cases hn : 0 < n <;> simp [hn]
  | error e => simp

theorem processRecord_commits (dry : Bool) (st : MigState) (r : Row) :
    (processRecord dry st r).commits = st.commits := by
  unfold processRecord
  cases fixBody r.body with
  | ok p =>
      cases p with
      | mk doc n => by_cases hn : 0 < n <;> simp [hn]
  | error e => rfl

theorem processBatch_writes_dry : ∀ (records : List Row) (st : MigState),
    (processBatch true st records).writes = st.writes
  | [], _ => rfl
  | r :: rest, st => by
      simp only [processBatch, List.foldl_cons]
      rw [show (List.foldl (processRecord true) (processRecord true st r) rest)
            = processBatch true (processRecord true st r) rest from rfl,
        processBatch_writes_dry rest _, processRecord_writes_dry]

theorem processBatch_writes_live : ∀ (records : List Row) (st : MigState),
    (processBatch false st records).writes = st.writes ++ records.filterMap pickWrite
  | [], _ => by simp [processBatch]
  | r :: rest, st => by
      simp only [processBatch, List.foldl_cons]
      rw [show (List.foldl (processRecord false) (processRecord false st r) rest)
            = processBatch false (processRecord false st r) rest from rfl,
        processBatch_writes_live rest _, processRecord_writes_live]
      cases hp : pickWrite r <;> simp [List.filterMap_cons, hp]

theorem processBatch_commits : ∀ (records : List Row) (dry : Bool) (st : MigState),
    (processBatch dry st records).commits = st.commits
  | [], _, _ => rfl
  | r :: rest, dry, st => by
      simp only [processBatch, List.foldl_cons]
      rw [show (List.foldl (processRecord dry) (processRecord dry st r) rest)
            = processBatch dry (processRecord dry st r) rest from rfl,
        processBatch_commits rest dry _, processRecord_commits]

/-- C7: over a batch, live mode writes back exactly the records whose
repair yields a positive fix count (in page order) and commits exactly
once after the page is processed; dry-run mode issues no write and no
commit at all. -/
theorem migrate_write_discipline (st : MigState) (records : List Row) :
    (runBatch true st records).writes = st.writes
    ∧ (runBatch true st records).commits = st.commits
    ∧ (runBatch false st records).writes = st.writes ++ records.filterMap pickWrite
    ∧ (runBatch false st records).commits = st.commits + 1 := by
  refine ⟨?_, ?_, ?_, ?_⟩
  · simp [runBatch, processBatch_writes_dry]
  · simp [runBatch, processBatch_commits]
  · simp [runBatch, processBatch_writes_live]
  · simp [runBatch, processBatch_commits]

/-! ### Reconciliation theorems -/

/-- Counterexample to C8 as stated: a record whose uri is empty has an
empty record key; that key is not in the (empty) indexed key set, yet the
record is NOT classified as missing, because the code requires a truthy
rkey before comparing. -/
theorem missing_empty_rkey_cex :
    missingFor [] "app.bsky.feed.post" [⟨"", none⟩] = []
    ∧ ((indexedKeysFor [] "app.bsky.feed.post").contains (rkey_of "")) = false :=
  ⟨rfl, rfl⟩

/-- C8 (amended): a fetched record is classified as missing if and only
if its record key (the segment after the last slash of its uri) is
nonempty and not in the secondary index's key set for that collection;
an empty authoritative set yields no missing records, and every fetched
collection contributes exactly its filtered list. -/
theorem missing_set_diff :
    (∀ (indexed : List (String × List String)) (c : String) (recs : List SrcRec)
        (r : SrcRec),
      r ∈ missingFor indexed c recs
        ↔ (r ∈ recs ∧ rkey_of r.uri ≠ ""
            ∧ ¬ rkey_of r.uri ∈ indexedKeysFor indexed c))
    ∧ (∀ indexed, computeMissing [] indexed = [])
    ∧ (∀ (pds : List (String × List SrcRec)) indexed c recs, (c, recs) ∈ pds →
        (c, missingFor indexed c recs) ∈ computeMissing pds indexed) := by
  refine ⟨?_, fun _ => rfl, ?_⟩
  · intro indexed c recs r
    simp [missingFor, List.mem_filter]
  · intro pds indexed c recs hmem
    unfold computeMissing
    exact List.mem_map.mpr ⟨(c, recs), hmem, rfl⟩

/-- Witness for the amended C8: a record absent from the index is
classified missing. -/
theorem missing_set_diff_witness :
    (⟨"a/b/k2", none⟩ : SrcRec)
      ∈ missingFor [("c", ["k1"])] "c" [⟨"a/b/k1", none⟩, ⟨"a/b/k2", none⟩] :=
  (missing_set_diff.1 [("c", ["k1"])] "c" [⟨"a/b/k1", none⟩, ⟨"a/b/k2", none⟩]
    ⟨"a/b/k2", none⟩).mpr ⟨by simp, by decide, by decide⟩

/-! ### Delivery-log scan theorems -/

/-- Counterexample to C9 as stated.  First: scanning `demoMsgs` with
batch size 1, the only searched key is located in the first batch
(a one-chunk run already returns it after scanning 1 message), yet the
scan does not stop early — it scans 3 messages, its full chunk budget.
Second: on `demoMsgs2` the key's newest match (id 3) is overwritten by
the older one (id 2), so a found key is not removed from the remaining
search set as soon as it is found. -/
theorem scan_no_early_stop_cex :
    search_stream_for_rkeys demoMsgs ["r"] "d" 1 = ([("r", 2)], 3)
    ∧ searchLoop demoMsgs "d" ["r"] 1 1 none [] 0 = ([("r", 2)], 1)
    ∧ search_stream_for_rkeys demoMsgs2 ["r"] "d" 2 = ([("r", 2)], 3) := by
  refine ⟨by decide, by decide, by decide⟩

theorem mem_upsert (found : List (String × Nat)) (k : String) (v : Nat) (p : String × Nat)
    (hp : p ∈ upsert found k v) : p ∈ found ∨ p = (k, v) := by
  unfold upsert at hp
  split_ifs at hp with h
  · obtain ⟨q, hq, hqe⟩ := List.mem_map.mp hp
    by_cases hqk : q.1 = k
    · right
      rw [← hqe]
      simp [hqk]
    · left
      rw [← hqe]
      simpa [hqk] using hq
  · rcases List.mem_append.mp hp with h1 | h1
    · exact Or.inl h1
    · right
      simpa using h1

theorem mem_scanMsg (did : String) (rkeys : List String) (found : List (String × Nat))
    (m : RMsg) (p : String × Nat) (hp : p ∈ scanMsg did rkeys found m) :
    p ∈ found ∨ matchesKey did rkeys p m := by
  unfold scanMsg at hp
  split_ifs at hp with h1 h2 h3
  · rcases mem_upsert _ _ _ _ hp with h | h
    · exact Or.inl h
    · right
      rw [h]
      exact ⟨h3, rfl, rfl, h1, h2⟩
  · exact Or.inl hp
  · exact Or.inl hp
  · exact Or.inl hp

theorem scanChunk_sound (did : String) (rkeys : List String) :
    ∀ (messages : List RMsg) (found : List (String × Nat)) (p : String × Nat),
    p ∈ scanChunk did rkeys found messages →
    p ∈ found ∨ ∃ m ∈ messages, matchesKey did rkeys p m
  | [], _, p, hp => Or.inl hp
  | m :: rest, found, p, hp => by
      rcases scanChunk_sound did rkeys rest (scanMsg did rkeys found m) p hp with
        h | ⟨m2, hm2, hmk⟩
      · rcases mem_scanMsg did rkeys found m p h with h2 | h2
        · exact Or.inl h2
        · exact Or.inr ⟨m, List.mem_cons_self m rest, h2⟩
      · exact Or.inr ⟨m2, List.mem_cons_of_mem m hm2, hmk⟩

theorem xrevrange_subset (msgs : List RMsg) (cursor : Option Nat) (count : Nat)
    (m : RMsg) (hm : m ∈ xrevrange msgs cursor count) : m ∈ msgs := by
  unfold xrevrange at hm
  have hmem := List.take_subset _ _ hm
  cases cursor with
  | none => exact hmem
  | some c => exact (List.mem_filter.mp hmem).1

theorem xrevrange_length (msgs : List RMsg) (cursor : Option Nat) (count : Nat) :
    (xrevrange msgs cursor count).length ≤ count := by
  unfold xrevrange
  exact List.length_take_le _ _

theorem searchLoop_sound (msgs : List RMsg) (did : String) (rkeys : List String)
    (batch_size : Nat) : ∀ (fuel : Nat) (cursor : Option Nat)
    (found : List (String × Nat)) (scanned : Nat) (p : String × Nat),
    (∀ q ∈ found, ∃ m ∈ msgs, matchesKey did rkeys q m) →
    p ∈ (searchLoop msgs did rkeys batch_size fuel cursor found scanned).1 →
    ∃ m ∈ msgs, matchesKey did rkeys p m
  | 0, _, found, scanned, p, hinv, hp => hinv p hp
  | fuel + 1, cursor, found, scanned, p, hinv, hp => by
      rw [searchLoop] at hp
      by_cases hM : (xrevrange msgs cursor batch_size).isEmpty
      · rw [if_pos hM] at hp
        exact hinv p hp
      · rw [if_neg hM] at hp
        refine searchLoop_sound msgs did rkeys batch_size fuel _ _ _ p ?_ hp
        intro q hq
        rcases scanChunk_sound did rkeys _ found q hq with h | ⟨m, hm, hmk⟩
        · exact hinv q h
        · exact ⟨m, xrevrange_subset msgs cursor batch_size m hm, hmk⟩

theorem searchLoop_scanned (msgs : List RMsg) (did : String) (rkeys : List String)
    (batch_size : Nat) : ∀ (fuel : Nat) (cursor : Option Nat)
    (found : List (String × Nat)) (scanned : Nat),
    (searchLoop msgs did rkeys batch_size fuel cursor found scanned).2
      ≤ scanned + fuel * batch_size
  | 0, _, _, scanned => Nat.le_add_right _ _
  | fuel + 1, cursor, found, scanned => by
      rw [searchLoop]
      by_cases hM : (xrevrange msgs cursor batch_size).isEmpty
      · rw [if_pos hM]
        exact Nat.le_add_right _ _
      · rw [if_neg hM]
        calc (searchLoop msgs did rkeys batch_size fuel
                (some ((xrevrange msgs cursor batch_size).getLastD ⟨0, "", ""⟩).id)
                (scanChunk did rkeys found (xrevrange msgs cursor batch_size))
                (scanned + (xrevrange msgs cursor batch_size).length)).2
            ≤ scanned + (xrevrange msgs cursor batch_size).length + fuel * batch_size :=
              searchLoop_scanned msgs did rkeys batch_size fuel _ _ _
          _ ≤ scanned + (fuel + 1) * batch_size := by
              have hlen := xrevrange_length msgs cursor batch_size
              have h2 : (fuel + 1) * batch_size = fuel * batch_size + batch_size := by ring
              omega

/-- C9 (amended): every entry of the found map is genuine — its key is
one of the searched keys and some entry of the scanned stream has the
searched identity, the recorded message id, and a slashed path whose
trailing segment equals the key (a later, older duplicate overwrites the
recorded id, and the scan does not stop early once every key is found);
the number of scanned messages is bounded by the chunk budget
`min(20, len/batch + 1)` times the batch size. -/
theorem scan_bounded_sound (msgs : List RMsg) (rkeys : List String) (did : String)
    (batch_size : Nat) (p : String × Nat) :
    (p ∈ (search_stream_for_rkeys msgs rkeys did batch_size).1 →
      rkeys.contains p.1 = true ∧ ∃ m ∈ msgs, m.did = did ∧ m.id = p.2
        ∧ hasSlash m.path = true ∧ rkey_of m.path = p.1)
    ∧ (search_stream_for_rkeys msgs rkeys did batch_size).2
        ≤ min 20 (msgs.length / batch_size + 1) * batch_size := by
  constructor
  · intro hp
    unfold search_stream_for_rkeys at hp
    obtain ⟨m, hm, hk, h1, h2, h3, h4⟩ :=
      searchLoop_sound msgs did rkeys batch_size _ none [] 0 p
        (fun q hq => absurd hq (List.not_mem_nil q)) hp
    exact ⟨hk, m, hm, h3, h2.symm, h4, h1.symm⟩
  · have hb := searchLoop_scanned msgs did rkeys batch_size
      (min 20 (msgs.length / batch_size + 1)) none [] 0
    unfold search_stream_for_rkeys
    simpa using hb

/-- Witness for the amended C9 on the demo stream. -/
theorem scan_bounded_sound_witness :
    (["r"] : List String).contains ("r", 2).1 = true
    ∧ ∃ m ∈ demoMsgs, m.did = "d" ∧ m.id = ("r", 2).2
        ∧ hasSlash m.path = true ∧ rkey_of m.path = ("r", 2).1 :=
  (scan_bounded_sound demoMsgs ["r"] "d" 1 ("r", 2)).1 (by decide)

/-! ### Date-range filter theorems -/

/-- C10: with a time window, a missing record joins the filtered missing
set exactly when it has a `createdAt` string that parses to a timestamp
inside `[start, end]`; records without the field or with an unparseable
timestamp are silently excluded, and the delivery-log search set is
extracted only from records of the (filtered) missing structure. -/
theorem date_filter_exact :
    (∀ (parse : String → Option Int) (s e : Int) (recs : List SrcRec) (r : SrcRec),
      r ∈ filter_missing_by_date parse s e recs
        ↔ r ∈ recs ∧ ∃ ts t, r.createdAt = some ts ∧ parse ts = some t
            ∧ s ≤ t ∧ t ≤ e)
    ∧ (∀ parse s e (missing : List (String × List SrcRec)) c recs,
        (c, recs) ∈ missing →
        (c, filter_missing_by_date parse s e recs) ∈ filter_missing_map parse s e missing)
    ∧ (∀ (missing : List (String × List SrcRec)) (rk : String),
        rk ∈ extract_rkeys missing →
        rk ≠ "" ∧ ∃ ce ∈ missing, ∃ r ∈ ce.2, rkey_of r.uri = rk) := by
  refine ⟨?_, ?_, ?_⟩
  · intro parse s e recs r
    rw [filter_missing_by_date, List.mem_filter]
    cases hca : r.createdAt with
    | none => simp [hca]
    | some ts =>
        cases hp : parse ts with
        | none => simp [hca, hp]
        | some t => simp [hca, hp]
  · intro parse s e missing c recs hmem
    unfold filter_missing_map
    exact List.mem_map.mpr ⟨(c, recs), hmem, rfl⟩
  · intro missing rk hrk
    unfold extract_rkeys at hrk
    have h1 := List.mem_filter.mp hrk
    obtain ⟨ce, hce, hmap⟩ := List.mem_flatMap.mp h1.1
    obtain ⟨r, hr, hre⟩ := List.mem_map.mp hmap
    exact ⟨by simpa using h1.2, ce, hce, r, hr, hre⟩

/-- Witness for C10: an in-window record is kept. -/
theorem date_filter_exact_witness :
    (⟨"x/y", some "2025"⟩ : SrcRec)
      ∈ filter_missing_by_date parse0 0 10 [⟨"x/y", some "2025"⟩] :=
  (date_filter_exact.1 parse0 0 10 [⟨"x/y", some "2025"⟩] ⟨"x/y", some "2025"⟩).mpr
    ⟨by simp, "2025", 5, rfl, rfl, by norm_num, by norm_num⟩
